import Mathlib

/-!
Verification of the CsvCompare reconciliation pipeline.

This file gives a shallow embedding, in Lean 4, of the core functions of the
repository (section detection, table-block finding, label-tier extraction,
record building, key indexing and value comparison) and proves or refutes the
behavioural claims about them.  Python strings are modelled as Lean `String`
(manipulated through their underlying `List Char`), Python floats as exact
rationals `ℚ`, fallible operations as `Option`, and unbounded `while` loops
as fuel-indexed recursion with a fuel argument large enough to cover every
iteration the Python loop can perform.
-/

namespace Py

/-- Whitespace test used to model Python `str.strip` and the regex `\s`
(restricted to ASCII whitespace, which both agree on). -/
def ws (c : Char) : Bool := c.isWhitespace

/-- Drop trailing whitespace, modelling the right half of `str.strip`. -/
def rtrim (l : List Char) : List Char := (l.reverse.dropWhile ws).reverse

/-- Model of Python `str.strip()` on a character list. -/
def trimL (l : List Char) : List Char := rtrim (l.dropWhile ws)

/-- Model of Python `str.strip()` on a `String`. -/
def trimS (s : String) : String := ⟨trimL s.data⟩

/-- ASCII lower-casing of one character, modelling Python `str.lower` on the
ASCII range (non-ASCII letters never survive the later alphanumeric filters
used by the repository, so the restriction is harmless here). -/
def lowerCh (c : Char) : Char :=
  if 'A' ≤ c ∧ c ≤ 'Z' then Char.ofNat (c.toNat + 32) else c

/-- Model of Python `str.lower()`. -/
def lowerS (s : String) : String := ⟨s.data.map lowerCh⟩

/-- Numeric value of a digit string (most significant first). -/
def digitsVal (l : List Char) : ℕ := l.foldl (fun a c => a * 10 + (c.toNat - 48)) 0

/-- Exponent part of a float literal: optional sign then one or more digits,
consuming the whole remaining input. -/
def parseExp (cs : List Char) : Option ℤ :=
  match cs with
  | '+' :: t => if t ≠ [] ∧ t.all Char.isDigit then some (digitsVal t) else none
  | '-' :: t => if t ≠ [] ∧ t.all Char.isDigit then some (-(digitsVal t : ℤ)) else none
  | t => if t ≠ [] ∧ t.all Char.isDigit then some (digitsVal t) else none

/-- Scaling of a rational by a power of ten, written on the raw
numerator/denominator representation so that concrete instances reduce inside
the kernel; `scaleExp_eq` below identifies it with `m * 10 ^ e`. -/
def scaleExp (m : ℚ) (e : ℤ) : ℚ :=
  match e with
  | .ofNat n => Rat.divInt (m.num * 10 ^ n) m.den
  | .negSucc n => Rat.divInt m.num (m.den * 10 ^ (n + 1))

/-- Division of rationals on the raw representation, with `qdiv_eq` below
identifying it with `a / b`; used so that concrete instances reduce inside
the kernel. -/
def qdiv (a b : ℚ) : ℚ := Rat.divInt (a.num * b.den) (a.den * b.num)

/-- Mantissa of a float literal: digits with an optional fractional part;
at least one digit must be present on one of the two sides.  The value
`int_digits.frac_digits` is `(int·10^k + frac) / 10^k`; it is returned
together with the unconsumed remainder. -/
def parseMantissa (cs : List Char) : Option (ℚ × List Char) :=
  let ip := cs.takeWhile Char.isDigit
  let r1 := cs.dropWhile Char.isDigit
  match r1 with
  | '.' :: r2 =>
      let fp := r2.takeWhile Char.isDigit
      let r3 := r2.dropWhile Char.isDigit
      if ip = [] ∧ fp = [] then none
      else
        some (Rat.divInt (digitsVal ip * 10 ^ fp.length + digitsVal fp) (10 ^ fp.length), r3)
  | _ => if ip = [] then none else some ((digitsVal ip : ℚ), r1)

/-- Unsigned float literal: mantissa followed by an optional exponent. -/
def parseUnsigned (cs : List Char) : Option ℚ :=
  (parseMantissa cs).bind fun p =>
    match p.2 with
    | [] => some p.1
    | 'e' :: t => (parseExp t).map fun e => scaleExp p.1 e
    | 'E' :: t => (parseExp t).map fun e => scaleExp p.1 e
    | _ => none

/-- Model of Python `float(str)` on decimal literals: surrounding whitespace
is ignored, then an optional sign, digits with optional fraction and optional
exponent.  The special tokens `inf`/`nan` and digit-group underscores are not
modelled; no cell handled by the claims uses them. -/
def pyFloat (cs : List Char) : Option ℚ :=
  match trimL cs with
  | '+' :: r => parseUnsigned r
  | '-' :: r => (parseUnsigned r).map Neg.neg
  | r => parseUnsigned r

/-- Model of Python list indexing `l[i]` with negative wrap-around:
`l[-1]` is the last element; an index out of range on either side is an
`IndexError`, modelled as `none`. -/
def pyIdx (l : List String) (i : ℤ) : Option String :=
  if 0 ≤ i then l.get? i.toNat
  else if 0 ≤ (l.length : ℤ) + i then l.get? ((l.length : ℤ) + i).toNat
  else none

end Py

/-- A grid is a list of rows of string cells, exactly as produced by the CSV
readers of the repository. -/
abbrev Grid := List (List String)

/-- Cell access `grid[r][c]`; out-of-range reads yield `""`, which every
caller in the repository treats as blank. -/
def cellAt (g : Grid) (r c : ℕ) : String := (g.getD r []).getD c ""

namespace RbuSpace

/-- Model of `is_blank` in `rateBuildUp/rbuSpace.py`: a cell is blank when it
strips to the empty string. -/
def is_blank (s : String) : Bool := Py.trimS s = ""

/-- Blankness of the cell at `(r, c)`; the only property of a cell the
table-block finder ever inspects. -/
def blankAt (g : Grid) (r c : ℕ) : Bool := is_blank (cellAt g r c)

/-- Model of `looks_alpha`: some character of the cell is alphabetic. -/
def looks_alpha (s : String) : Bool := ¬ is_blank s ∧ s.data.any Char.isAlpha

/-- Optional leading sign, shared by the `looks_numeric` alternatives. -/
def chompSign (l : List Char) : List Char :=
  match l with
  | '+' :: t => t
  | '-' :: t => t
  | t => t

/-- The regex fragment `(?:\.\d+)?`: an optional dot followed by one or more
digits.  `none` signals that a dot was present without a following digit, in
which case no continuation of the pattern can consume it. -/
def matchFrac (l : List Char) : Option (List Char) :=
  match l with
  | '.' :: t =>
      let ds := t.takeWhile Char.isDigit
      let r := t.dropWhile Char.isDigit
      if ds = [] then none else some r
  | t => some t

/-- The regex fragment `(?:,\d{3})*`, consumed greedily with the fuel bounding
the number of groups. -/
def matchThousands : ℕ → List Char → Option (List Char)
  | _, [] => some []
  | 0, l => some l
  | fuel + 1, c :: t =>
      if c = ',' then
        let ds := t.takeWhile Char.isDigit
        let r := t.dropWhile Char.isDigit
        if ds.length = 3 then matchThousands fuel r else none
      else some (c :: t)

/-- First `looks_numeric` alternative: `[-+]?\d{1,3}(?:,\d{3})*(?:\.\d+)?%?`. -/
def matchAlt1 (l : List Char) : Bool :=
  let l1 := chompSign l
  let ds := l1.takeWhile Char.isDigit
  let r := l1.dropWhile Char.isDigit
  if ds.length < 1 ∨ 3 < ds.length then false
  else
    match matchThousands r.length r with
    | none => false
    | some r2 =>
        match matchFrac r2 with
        | none => false
        | some r3 => r3 = [] ∨ r3 = ['%']

/-- Second `looks_numeric` alternative: `[-+]?\d+(?:\.\d+)?%?`. -/
def matchAlt2 (l : List Char) : Bool :=
  let l1 := chompSign l
  let ds := l1.takeWhile Char.isDigit
  let r := l1.dropWhile Char.isDigit
  if ds = [] then false
  else
    match matchFrac r with
    | none => false
    | some r2 => r2 = [] ∨ r2 = ['%']

/-- Third `looks_numeric` alternative: `[₹$€]?\s*[-+]?\d+(?:\.\d+)?`. -/
def matchAlt3 (l : List Char) : Bool :=
  let l1 :=
    match l with
    | c :: t => if c = '₹' ∨ c = '$' ∨ c = '€' then t else c :: t
    | [] => []
  let l2 := chompSign (l1.dropWhile Py.ws)
  let ds := l2.takeWhile Char.isDigit
  let r := l2.dropWhile Char.isDigit
  if ds = [] then false
  else
    match matchFrac r with
    | none => false
    | some r2 => r2 = []

/-- Model of `looks_numeric`: the stripped cell fully matches one of the three
regex alternatives. -/
def looks_numeric (s : String) : Bool :=
  if is_blank s then false
  else
    let t := Py.trimL s.data
    matchAlt1 t || matchAlt2 t || matchAlt3 t

/-- Model of `parse_numeric`: a trailing `%` is handled first (commas removed,
value divided by 100); otherwise currency symbols and commas are removed and
the remainder parsed as a float. -/
def parse_numeric (s : String) : Option ℚ :=
  if is_blank s then none
  else
    let t := Py.trimL s.data
    if t.getLast? = some '%' then
      (Py.pyFloat ((t.dropLast).filter (· ≠ ','))).map (Py.qdiv · 100)
    else
      Py.pyFloat ((((t.filter (· ≠ '₹')).filter (· ≠ '$')).filter (· ≠ '€')).filter (· ≠ ','))

/-- Model of `detect_header_rows`: index of the first scanned row at least
half (and at least 2) of whose cells look numeric; fallback `min 3 rows`. -/
def detect_header_rows (g : Grid) (max_scan : ℕ := 12) : ℕ :=
  if g.length = 0 then 0
  else
    let width := (g.headD []).length
    match (List.range (min max_scan g.length)).find?
        (fun i => 0 < width ∧ max 2 (width / 2) ≤ (g.getD i []).countP looks_numeric) with
    | some i => i
    | none => min 3 g.length

/-- Model of `consecutive_blank_headers_in_col`: number of blank cells of
column `col` among the header rows `0 ≤ r < min header_rows rows`. -/
def consecutive_blank_headers_in_col (g : Grid) (col header_rows : ℕ) : ℕ :=
  (List.range (min header_rows g.length)).countP (fun r => blankAt g r col)

/-- Model of `column_has_any_data`: some row at or below `data_start_row` has
a non-blank cell in column `col`. -/
def column_has_any_data (g : Grid) (col data_start_row : ℕ) : Bool :=
  (List.range' data_start_row (g.length - data_start_row)).any (fun r => ¬ blankAt g r col)

/-- Stop condition of the inner forward-fill loop of
`map_section_labels_by_col`: a hard separator (at least `min_blank_sep` blank
header cells in this column) or a column with no data. -/
def colStop (g : Grid) (header_rows data_start_row min_blank_sep c : ℕ) : Bool :=
  min_blank_sep ≤ consecutive_blank_headers_in_col g c header_rows
    || ¬ column_has_any_data g c data_start_row

/-- Inner `while` loop of `map_section_labels_by_col`: starting at column
`c2`, assign `label` to consecutive columns until `colStop` fires; returns the
assignments and the column the loop stopped at.  Invoked with fuel
`width - c2`, matching the loop guard `c2 < width`. -/
def runFill (g : Grid) (hr ds sep : ℕ) (label : String) : ℕ → ℕ → List (ℕ × String) × ℕ
  | 0, c2 => ([], c2)
  | fuel + 1, c2 =>
      if colStop g hr ds sep c2 then ([], c2)
      else
        let p := runFill g hr ds sep label fuel (c2 + 1)
        ((c2, label) :: p.1, p.2)

/-- Outer `while` loop of `map_section_labels_by_col`: skip blank section-row
cells, otherwise run the fill from the labelled column and resume after the
column the fill stopped at.  The scan column grows by at least one per step,
so fuel `width` covers every iteration. -/
def mapSecGo (g : Grid) (section_row hr ds sep width : ℕ) : ℕ → ℕ → List (ℕ × String)
  | 0, _ => []
  | fuel + 1, c =>
      if c < width then
        let cell := if section_row < g.length then cellAt g section_row c else ""
        if is_blank cell then mapSecGo g section_row hr ds sep width fuel (c + 1)
        else
          let p := runFill g hr ds sep (Py.trimS cell) (width - c) c
          p.1 ++ mapSecGo g section_row hr ds sep width fuel (p.2 + 1)
      else []

/-- Model of `map_section_labels_by_col`: the column → section-label map,
as an association list in insertion order (each column is assigned at most
once, so insertion order carries the full dict semantics). -/
def map_section_labels_by_col (g : Grid) (section_row header_rows data_start_row : ℕ)
    (min_blank_sep : ℕ := 2) : List (ℕ × String) :=
  let width := (g.headD []).length
  mapSecGo g section_row header_rows data_start_row min_blank_sep width width 0

/-- Model of `first_non_empty_row_in_cols`: first row at or after `start_row`
with a non-blank cell in one of `cols`. -/
def first_non_empty_row_in_cols (g : Grid) (cols : List ℕ) (start_row : ℕ) : Option ℕ :=
  (List.range' start_row (g.length - start_row)).find?
    (fun r => cols.any (fun c => ¬ blankAt g r c))

/-- Loop of `right_boundary_in_row_until_empty_col`: walk the sorted column
list, start acting once `start_col` is reached, and on the first blank cell
return the preceding sorted column (or the blank column itself when it is the
first). -/
def rbLoop (g : Grid) (row : ℕ) (sortedAll : List ℕ) (start_col : ℕ) :
    Bool → List ℕ → Option ℕ
  | _, [] => none
  | started, c :: rest =>
      let started' := started || (c = start_col)
      if ¬ started' then rbLoop g row sortedAll start_col started' rest
      else if blankAt g row c then
        let i := sortedAll.indexOf c
        some (if 0 < i then sortedAll.getD (i - 1) 0 else c)
      else rbLoop g row sortedAll start_col started' rest

/-- Model of `right_boundary_in_row_until_empty_col`. -/
def right_boundary_in_row_until_empty_col (g : Grid) (row : ℕ) (cols : List ℕ)
    (start_col : ℕ) : ℕ :=
  let sorted := cols.mergeSort (· ≤ ·)
  let sc := if start_col ∈ sorted then start_col else sorted.headD 0
  (rbLoop g row sorted sc false sorted).getD (sorted.getLastD 0)

/-- Condition of the bottom scan of `find_table_blocks_in_section`: every
cell of row `rr` between `left` and `right` is blank. -/
def rangeAllBlank (g : Grid) (rr left right : ℕ) : Bool :=
  (List.range' left (right + 1 - left)).all (fun c => blankAt g rr c)

/-- Bottom-scan loop: advance while inside the grid and not on a fully blank
row across `[left, right]`. -/
def scanBottom (g : Grid) (left right : ℕ) : ℕ → ℕ → ℕ
  | 0, rr => rr
  | fuel + 1, rr =>
      if rr < g.length ∧ ¬ rangeAllBlank g rr left right then
        scanBottom g left right fuel (rr + 1)
      else rr

/-- Main loop of `find_table_blocks_in_section`, fuel-indexed: locate the top
of the next block, compute its right boundary and bottom, then continue below
it. -/
def ftbGo (g : Grid) (section_cols : List ℕ) : ℕ → ℕ → List (ℕ × ℕ × ℕ × ℕ)
  | 0, _ => []
  | fuel + 1, r =>
      match first_non_empty_row_in_cols g section_cols r with
      | none => []
      | some top =>
          let left := (section_cols.mergeSort (· ≤ ·)).headD 0
          let right := right_boundary_in_row_until_empty_col g top section_cols left
          let bottom := scanBottom g left right (g.length + 1) top - 1
          (top, bottom, left, right) :: ftbGo g section_cols fuel (bottom + 1)

/-- Model of `find_table_blocks_in_section`: rectangles
`(top, bottom, left, right)` found by the space technique.  The scan row grows
strictly between iterations, so fuel `rows + 1` covers every iteration the
Python loop performs before exhausting the grid. -/
def find_table_blocks_in_section (g : Grid) (section_cols : List ℕ) (section_row : ℕ) :
    List (ℕ × ℕ × ℕ × ℕ) :=
  if section_cols = [] then []
  else ftbGo g section_cols (g.length + 1) (section_row + 1)

/-- Forward fill of one label row across `[left, right]`, carrying the last
non-blank (stripped) value. -/
def fillLabelsGo (g : Grid) (r : ℕ) : String → List ℕ → List String
  | _, [] => []
  | last, c :: cs =>
      let v := cellAt g r c
      let last' := if is_blank v then last else Py.trimS v
      last' :: fillLabelsGo g r last' cs

/-- Forward-filled cells of row `r` between `left` and `right`. -/
def fillLabels (g : Grid) (r left right : ℕ) : List String :=
  fillLabelsGo g r "" (List.range' left (right + 1 - left))

/-- Row `r` has an alphabetic character within `[left, right]`. -/
def rowHasAlpha (g : Grid) (r left right : ℕ) : Bool :=
  (List.range' left (right + 1 - left)).any (fun c => looks_alpha (cellAt g r c))

/-- Model of `forward_fill_label_rows`: every row of the block with an
alphabetic character contributes its forward-filled cells, in row order. -/
def forward_fill_label_rows (g : Grid) (top bottom left right : ℕ) : List (List String) :=
  (List.range' top (bottom + 1 - top)).foldl
    (fun acc r => if rowHasAlpha g r left right then acc ++ [fillLabels g r left right] else acc)
    []

end RbuSpace

namespace CompareRBU

/-- En and em dashes are rewritten to `-` by `normalize_text`. -/
def dashCh (c : Char) : Char := if c = '–' ∨ c = '—' then '-' else c

/-- One step of `re.sub(r"\s+", " ", ·)`: every maximal whitespace run
becomes a single space; the flag records whether the previous character was
whitespace. -/
def collapseGo : Bool → List Char → List Char
  | _, [] => []
  | prev, c :: t =>
      if Py.ws c then
        if prev then collapseGo true t else ' ' :: collapseGo true t
      else c :: collapseGo false t

/-- Model of `normalize_text` in `DataValidation_RBU/compareRateBuildUp.py`:
strip, rewrite en/em dashes to `-`, collapse internal whitespace runs to a
single space. -/
def normalize_text (s : String) : String :=
  ⟨collapseGo false ((Py.trimL s.data).map dashCh)⟩

/-- The sentinel tokens `is_floaty`/`to_float` reject after lower-casing. -/
def na_set : List String := ["na", "n/a", "null"]

/-- Model of `to_float`: strip, reject the na sentinels, remove commas and
dollar signs, drop one trailing `%`, parse as float.  The Python function
returns `nan` on failure; that is modelled as `none`. -/
def to_float (val : String) : Option ℚ :=
  let s := Py.trimS val
  if s = "" ∨ Py.lowerS s ∈ na_set then none
  else
    let s2 := (s.data.filter (· ≠ ',')).filter (· ≠ '$')
    let s3 := if s2.getLast? = some '%' then s2.dropLast else s2
    Py.pyFloat s3

/-- Model of `is_floaty`: same pipeline as `to_float`, testing whether the
final float parse succeeds. -/
def is_floaty (val : String) : Bool :=
  let s := Py.trimS val
  if s = "" ∨ Py.lowerS s ∈ na_set then false
  else
    let s2 := (s.data.filter (· ≠ ',')).filter (· ≠ '$')
    let s3 := if s2.getLast? = some '%' then s2.dropLast else s2
    (Py.pyFloat s3).isSome

/-- Outcome of comparing the two values stored under one shared key. -/
inductive CmpKind
  | matched
  | numericMismatch
  | nanMismatch
  | textMismatch
deriving DecidableEq, Repr

/-- Per-shared-key body of `compare_records` (lines 229–248 of
`DataValidation_RBU/compareRateBuildUp.py`): when either value looks floaty,
compare parsed magnitudes against the tolerance (`diff > tolerance` is a
mismatch); otherwise compare normalized, lower-cased text. -/
def classify_shared_value (v1 v2 : String) (tolerance : ℚ) : CmpKind :=
  if is_floaty v1 || is_floaty v2 then
    match to_float v1, to_float v2 with
    | some f1, some f2 =>
        if tolerance < |f1 - f2| then .numericMismatch else .matched
    | _, _ => .nanMismatch
  else if Py.lowerS (normalize_text v1) ≠ Py.lowerS (normalize_text v2) then .textMismatch
  else .matched

end CompareRBU

namespace DVRbuSpace

/-- Model of `is_blank` in `DataValidation_RBU/rbuSpace.py`. -/
def is_blank (s : String) : Bool := Py.trimS s = ""

/-- Model of `is_number`: `float(str(x).replace(",", ""))` succeeds. -/
def is_number (x : String) : Bool := (Py.pyFloat (x.data.filter (· ≠ ','))).isSome

/-- Model of `to_float`: the parsed value of the comma-stripped cell. -/
def to_float (x : String) : Option ℚ := Py.pyFloat (x.data.filter (· ≠ ','))

/-- Forward-fill loop of `detect_sections`, carrying the last non-blank
section label across columns. -/
def detectSectionsGo (g : Grid) (section_row : ℕ) : String → List ℕ → List (ℕ × String)
  | _, [] => []
  | last, c :: cs =>
      let cell := cellAt g section_row c
      let last' := if is_blank cell then last else Py.trimS cell
      (c, last') :: detectSectionsGo g section_row last' cs

/-- Model of `detect_sections`: every column of the first row's width is
mapped to the last non-blank section-row label at or before it. -/
def detect_sections (g : Grid) (section_row : ℕ := 0) : List (ℕ × String) :=
  detectSectionsGo g section_row "" (List.range (g.headD []).length)

/-- Every cell of row `r` is blank (over the row's own cells, as in
`all(is_blank(x) for x in grid[r])`). -/
def rowAllBlank (g : Grid) (r : ℕ) : Bool := (g.getD r []).all is_blank

/-- Some cell of row `r` parses as a number. -/
def rowHasNumber (g : Grid) (r : ℕ) : Bool := (g.getD r []).any is_number

/-- Inner loop of `find_tables`: advance `r` while rows are non-blank and in
range; returns the first row index that is out of range or fully blank. -/
def scanTableEnd (g : Grid) : ℕ → ℕ → ℕ
  | 0, r => r
  | fuel + 1, r =>
      if r < g.length ∧ ¬ rowAllBlank g r then scanTableEnd g fuel (r + 1) else r

/-- Main loop of `find_tables`: skip blank rows, then collect the maximal
run of non-blank rows as one table.  `r` grows strictly, so fuel
`rows + 1` covers the whole scan. -/
def findTablesGo (g : Grid) : ℕ → ℕ → List (ℕ × ℕ)
  | 0, _ => []
  | fuel + 1, r =>
      if r < g.length then
        if rowAllBlank g r then findTablesGo g fuel (r + 1)
        else
          let e := scanTableEnd g (g.length + 1) r
          (r, e - 1) :: findTablesGo g fuel (e + 1)
      else []

/-- Model of `find_tables`: maximal vertical runs of non-blank rows, as
`(top, bottom)` pairs. -/
def find_tables (g : Grid) (start_row : ℕ := 1) : List (ℕ × ℕ) :=
  findTablesGo g (g.length + 1) start_row

/-- Model of `forward_fill` on one row. -/
def forward_fill : String → List String → List String
  | _, [] => []
  | last, x :: xs =>
      let last' := if is_blank x then last else Py.trimS x
      last' :: forward_fill last' xs

/-- Header scan of `extract_records`: rows of the block before the first row
containing a number, together with that first numeric row if any. -/
def headerScanGo (g : Grid) : List ℕ → List ℕ × Option ℕ
  | [] => ([], none)
  | r :: rest =>
      if rowHasNumber g r then ([], some r)
      else
        let p := headerScanGo g rest
        (r :: p.1, p.2)

/-- Header rows and data start of the block `[top, bottom]`. -/
def headerScan (g : Grid) (top bottom : ℕ) : List ℕ × Option ℕ :=
  headerScanGo g (List.range' top (bottom + 1 - top))

/-- One extracted record of `DataValidation_RBU/rbuSpace.py`. -/
structure DVRec where
  source : String
  secLabel : String
  group : String
  sub_group : String
  period : String
  channel : String
  value : Option ℚ
  raw : String
deriving DecidableEq, Repr

/-- Indices of the numeric cells of a row, in column order. -/
def num_cols (row : List String) : List ℕ :=
  (List.range row.length).filter (fun c => is_number (row.getD c ""))

/-- The cell the channel is read from: `row[nums[0] - 1]`, with Python's
negative-index wrap-around when the first numeric column is column 0. -/
def channel_cell (row : List String) : Option String :=
  match num_cols row with
  | [] => none
  | c :: _ => Py.pyIdx row ((c : ℤ) - 1)

/-- Records of one data row: one per numeric cell, labelled from the
forward-filled header tiers and the shared channel cell. -/
def rowRecords (g : Grid) (source : String) (secmap : List (ℕ × String))
    (group sub_group period : List String) (r : ℕ) : List DVRec :=
  let row := g.getD r []
  match num_cols row with
  | [] => []
  | c0 :: rest =>
      let channel := Py.trimS (((channel_cell row).getD ""))
      (c0 :: rest).map fun c =>
        { source := source
          secLabel := ((secmap.lookup c).getD "")
          group := group.getD c ""
          sub_group := sub_group.getD c ""
          period := period.getD c ""
          channel := channel
          value := to_float (row.getD c "")
          raw := row.getD c "" }

/-- Records contributed by the table `[top, bottom]`.  A table whose header
scan found fewer than three header rows is skipped (`continue`), contributing
`some []`; a table with three or more header rows but no numeric row would
make the Python code index `range(None, …)` and raise, modelled as `none`. -/
def recordsForTable (g : Grid) (source : String) (secmap : List (ℕ × String))
    (top bottom : ℕ) : Option (List DVRec) :=
  let p := headerScan g top bottom
  if p.1.length < 3 then some []
  else
    match p.2 with
    | none => none
    | some ds =>
        let group := forward_fill "" (g.getD (p.1.getD 0 0) [])
        let sub_group := forward_fill "" (g.getD (p.1.getD 1 0) [])
        let period := forward_fill "" (g.getD (p.1.getD 2 0) [])
        some ((List.range' ds (bottom + 1 - ds)).flatMap
          (rowRecords g source secmap group sub_group period))

/-- Record accumulation over the table list: the per-table records are
concatenated in order, and a failing table aborts the whole extraction. -/
def tablesRecords (g : Grid) (source : String) (secmap : List (ℕ × String)) :
    List (ℕ × ℕ) → Option (List DVRec)
  | [] => some []
  | tb :: rest =>
      match recordsForTable g source secmap tb.1 tb.2, tablesRecords g source secmap rest with
      | some rs, some more => some (rs ++ more)
      | _, _ => none

/-- Model of `extract_records` in `DataValidation_RBU/rbuSpace.py`: records
of every table, in table order; `none` models an uncaught Python exception. -/
def extract_records (g : Grid) (source : String) : Option (List DVRec) :=
  tablesRecords g source (detect_sections g 0) (find_tables g 1)

end DVRbuSpace

namespace CodeWithRow

/-- Model of `normalize` in `rateBuildUp/codeWithRow.py`: strip then lower. -/
def normalize (text : String) : String := Py.lowerS (Py.trimS text)

/-- A comparison key: the tuple of stripped key-column cells of a row. -/
abbrev Key := List String

/-- Model of `header_index_map`: normalized header → column index; a later
duplicate normalized header overwrites an earlier one, as in a Python dict
comprehension. -/
def header_index_map (headers : List String) : List (String × ℕ) :=
  (List.range headers.length).foldl
    (fun m i =>
      let k := normalize (headers.getD i "")
      if (m.lookup k).isSome then m.map (fun p => if p.1 = k then (k, i) else p)
      else m ++ [(k, i)])
    []

/-- The key-column indices `[hmap[normalize(k)] for k in key_cols]`; `none`
models the `KeyError` raised when a key column is missing. -/
def resolve_key_indexes (headers key_cols : List String) : Option (List ℕ) :=
  key_cols.mapM (fun k => (header_index_map headers).lookup (normalize k))

/-- The composite key of one data row:
`tuple((r[i] if i < len(r) else "").strip() for i in key_indexes)`. -/
def rowKey (idxs : List ℕ) (r : List String) : Key :=
  idxs.map (fun i => Py.trimS (r.getD i ""))

/-- Loop of `build_row_map`: first row per key is kept, every further row
with an already-present key appends the key to the duplicates list. -/
def buildRowMapGo (idxs : List ℕ) :
    List (Key × List String) → List Key → List (List String) → List (Key × List String) × List Key
  | m, d, [] => (m, d)
  | m, d, r :: rest =>
      if (m.lookup (rowKey idxs r)).isSome then
        buildRowMapGo idxs m (d ++ [rowKey idxs r]) rest
      else buildRowMapGo idxs (m ++ [(rowKey idxs r, r)]) d rest

/-- Model of `build_row_map`: the key → row map (an association list in
insertion order, matching dict semantics) and the duplicate-key list. -/
def build_row_map (rows : List (List String)) (headers key_cols : List String) :
    Option (List (Key × List String) × List Key) :=
  (resolve_key_indexes headers key_cols).map (fun idxs => buildRowMapGo idxs [] [] rows)

/-- Key set of a row map, as used by `compare_key_based`. -/
def keysOf (m : List (Key × List String)) : Finset Key := (m.map Prod.fst).toFinset

/-- Model of `keys1 - keys2` (`missing_in_report`) in `compare_key_based`. -/
def missing_in_report (m1 m2 : List (Key × List String)) : Finset Key :=
  keysOf m1 \ keysOf m2

/-- Model of `keys2 - keys1` (`extra_in_report`) in `compare_key_based`. -/
def extra_in_report (m1 m2 : List (Key × List String)) : Finset Key :=
  keysOf m2 \ keysOf m1

/-- Model of `keys1 & keys2` (`common_keys`) in `compare_key_based`. -/
def common_keys (m1 m2 : List (Key × List String)) : Finset Key :=
  keysOf m1 ∩ keysOf m2

end CodeWithRow

namespace Rates

/-- Model of `clean_text` in `rates.py`: remove BOM characters, then strip. -/
def clean_text (text : String) : String :=
  Py.trimS ⟨text.data.filter (· ≠ '\uFEFF')⟩

/-- A character kept by `re.sub(r"[^a-z0-9]", "", ·)`. -/
def keepCh (c : Char) : Bool := ('a' ≤ c ∧ c ≤ 'z') ∨ ('0' ≤ c ∧ c ≤ '9')

/-- Model of `normalize_header` in `rates.py`: clean, lower-case, and keep
only lower-case ASCII letters and digits. -/
def normalize_header (h : String) : String :=
  ⟨((clean_text h).data.map Py.lowerCh).filter keepCh⟩

end Rates

namespace RbuSpace

/-- One record emitted by `extract_space_technique`. -/
structure SpaceRec where
  source : String
  secLabel : String
  group_path : List String
  channel : String
  metric : String
  date_window : String
  value_text : String
  value_num : Option ℚ
  row_index : ℕ
  col_index : ℕ
deriving DecidableEq, Repr

/-- Model of `key_tuple`: the composite key used to align records across
files. -/
def key_tuple (r : SpaceRec) : String × List String × String × String × String :=
  (r.secLabel, r.group_path, r.channel, r.metric, r.date_window)

/-- Assignment into a Python dict modelled as an association list: an
existing binding is replaced in place, a new one appended. -/
def setKV {α β : Type} [DecidableEq α] (m : List (α × β)) (k : α) (v : β) : List (α × β) :=
  if (m.lookup k).isSome then m.map (fun p => if p.1 = k then (k, v) else p)
  else m ++ [(k, v)]

/-- Python `dict.setdefault`: insert only when the key is absent. -/
def setDefault {α β : Type} [DecidableEq α] (m : List (α × β)) (k : α) (v : β) : List (α × β) :=
  if (m.lookup k).isSome then m else m ++ [(k, v)]

/-- The per-key aggregate of `compare_records`: per-source parsed values and
raw texts, plus the meta fields of the record that created the entry. -/
structure AggEntry where
  values : List (String × Option ℚ)
  texts : List (String × String)
  meta : String × List String × String × String × String
deriving DecidableEq, Repr

/-- Folding one record into the aggregate: create the entry on first sight of
the key, then overwrite this source's value and text slots. -/
def aggStep (agg : List ((String × List String × String × String × String) × AggEntry))
    (rec : SpaceRec) : List ((String × List String × String × String × String) × AggEntry) :=
  let k := key_tuple rec
  let agg' :=
    if (agg.lookup k).isSome then agg
    else agg ++ [(k, { values := [], texts := [], meta := k })]
  match agg'.lookup k with
  | none => agg'
  | some e =>
      setKV agg' k
        { e with
          values := setKV e.values rec.source rec.value_num
          texts := setKV e.texts rec.source rec.value_text }

/-- Model of `compare_records` in `rateBuildUp/rbuSpace.py`: aggregate all
records by key, then pad every entry with placeholders for missing sources. -/
def compare_records (all_records : List SpaceRec) (sources_in_order : List String) :
    List ((String × List String × String × String × String) × AggEntry) :=
  let agg := all_records.foldl aggStep []
  agg.map (fun p =>
    (p.1,
      { p.2 with
        values := sources_in_order.foldl (fun vs src => setDefault vs src none) p.2.values
        texts := sources_in_order.foldl (fun ts src => setDefault ts src "") p.2.texts }))

end RbuSpace

/-! Concrete inputs used to evaluate the embedded functions. -/

/-- Grid with section labels `A` and `B` in row 0, a column (index 1) whose
two header cells are blank but whose data cell is not, and a data row. -/
def c3grid : Grid := [["A", "", "B"], ["h", "", "h"], ["1", "2", "3"]]

/-- Two-row block: a label row followed by a row that is numeric-majority yet
contains alphabetic text. -/
def c4grid : Grid := [["Group", "Group", "Group"], ["Retail", "1", "2"]]

/-- Grid whose single table has one header row and one data row holding a
numeric cell. -/
def c5grid : Grid := [["S", "", ""], ["Hdr", "", ""], ["Ch", "5", ""]]

/-- Grid whose second row carries a date-window token. -/
def c7grid1 : Grid := [["Sec", ""], ["01/27-12/27", "Hdr"], ["1", "2"]]

/-- The same grid with the date-window token replaced by other non-blank
text. -/
def c7grid2 : Grid := [["Sec", ""], ["PERIOD-LABEL", "Hdr"], ["1", "2"]]

/-- Two rows sharing the key `("A")` with different second cells. -/
def c1rows : List (List String) := [["A", "x"], ["A", "y"]]

/-- Two extracted records sharing source and composite key with different
values, in scan order. -/
def c1recs : List RbuSpace.SpaceRec :=
  [{ source := "A", secLabel := "S", group_path := ["G"], channel := "Ch", metric := "M",
     date_window := "P", value_text := "1", value_num := some 1, row_index := 5, col_index := 0 },
   { source := "A", secLabel := "S", group_path := ["G"], channel := "Ch", metric := "M",
     date_window := "P", value_text := "2", value_num := some 2, row_index := 6, col_index := 0 }]

/-! Helper lemmas. -/


/-- C8: for every pair of per-source key maps, the missing keys of each side
and the shared keys are pairwise disjoint and together cover the union of the
two key sets. -/
theorem missing_extra_common_partition (m1 m2 : List (CodeWithRow.Key × List String)) :
    Disjoint (CodeWithRow.missing_in_report m1 m2) (CodeWithRow.extra_in_report m1 m2) ∧
    Disjoint (CodeWithRow.missing_in_report m1 m2) (CodeWithRow.common_keys m1 m2) ∧
    Disjoint (CodeWithRow.extra_in_report m1 m2) (CodeWithRow.common_keys m1 m2) ∧
    CodeWithRow.missing_in_report m1 m2 ∪ CodeWithRow.extra_in_report m1 m2 ∪
        CodeWithRow.common_keys m1 m2 =
      CodeWithRow.keysOf m1 ∪ CodeWithRow.keysOf m2 := by
  unfold CodeWithRow.missing_in_report CodeWithRow.extra_in_report CodeWithRow.common_keys
  refine ⟨?_, ?_, ?_, ?_⟩
  · rw [Finset.disjoint_left]
    intro a ha hb
    simp only [Finset.mem_sdiff] at ha hb
    exact hb.2 ha.1
  · rw [Finset.disjoint_left]
    intro a ha hb
    simp only [Finset.mem_sdiff, Finset.mem_inter] at ha hb
    exact ha.2 hb.2
  · rw [Finset.disjoint_left]
    intro a ha hb
    simp only [Finset.mem_sdiff, Finset.mem_inter] at ha hb
    exact ha.2 hb.1
  · ext a
    simp only [Finset.mem_union, Finset.mem_sdiff, Finset.mem_inter]
    tauto


/-- Raw-representation division agrees with field division on `ℚ`. -/
theorem qdiv_eq (a b : ℚ) : Py.qdiv a b = a / b := by
  rcases eq_or_ne b 0 with rfl | hb
  · simp [Py.qdiv, Rat.divInt_zero]
  · have hbn : (b.num : ℚ) ≠ 0 := by exact_mod_cast Rat.num_ne_zero.mpr hb
    have hbd : (b.den : ℚ) ≠ 0 := by exact_mod_cast b.den_nz
    have had : (a.den : ℚ) ≠ 0 := by exact_mod_cast a.den_nz
    rw [Py.qdiv, Rat.divInt_eq_div]
    push_cast
    conv_rhs => rw [← Rat.num_div_den a, ← Rat.num_div_den b]
    field_simp

/-- Raw-representation power-of-ten scaling agrees with `m * 10 ^ e`. -/
theorem scaleExp_eq (m : ℚ) (e : ℤ) : Py.scaleExp m e = m * (10 : ℚ) ^ e := by
  have hd : (m.den : ℚ) ≠ 0 := by exact_mod_cast m.den_nz
  cases e with
  | ofNat n =>
      show Rat.divInt (m.num * 10 ^ n) m.den = _
      rw [Rat.divInt_eq_div]
      push_cast
      rw [show ((Int.ofNat n : ℤ)) = (n : ℤ) from rfl, zpow_natCast]
      conv_rhs => rw [← Rat.num_div_den m]
      field_simp
  | negSucc n =>
      show Rat.divInt m.num (m.den * 10 ^ (n + 1)) = _
      rw [Rat.divInt_eq_div]
      push_cast
      rw [zpow_negSucc]
      conv_rhs => rw [← Rat.num_div_den m]
      have h10 : ((10 : ℚ) ^ (n + 1)) ≠ 0 := by positivity
      field_simp

/-- `is_floaty` succeeds exactly when `to_float` parses, since the two share
the same pipeline. -/
theorem is_floaty_eq_isSome (v : String) :
    CompareRBU.is_floaty v = (CompareRBU.to_float v).isSome := by
  unfold CompareRBU.is_floaty CompareRBU.to_float
  by_cases h : Py.trimS v = "" ∨ Py.lowerS (Py.trimS v) ∈ CompareRBU.na_set
  · simp [h]
  · simp [h]

/-- C2: when both stored values parse as numbers, the shared key is classified
as a match exactly when the absolute difference is at most the tolerance; in
particular a difference equal to the tolerance is a match and anything
strictly larger is a numeric mismatch. -/
theorem classify_numeric_tolerance_inclusive (v1 v2 : String) (t f1 f2 : ℚ)
    (h1 : CompareRBU.to_float v1 = some f1) (h2 : CompareRBU.to_float v2 = some f2) :
    CompareRBU.classify_shared_value v1 v2 t = CompareRBU.CmpKind.matched ↔ |f1 - f2| ≤ t := by
  have hf : CompareRBU.is_floaty v1 = true := by
    rw [is_floaty_eq_isSome, h1]; rfl
  by_cases hlt : t < |f1 - f2|
  · simp only [CompareRBU.classify_shared_value, hf, Bool.true_or, if_true, h1, h2,
      if_pos hlt]
    exact iff_of_false (by simp) (not_le.mpr hlt)
  · simp only [CompareRBU.classify_shared_value, hf, Bool.true_or, if_true, h1, h2,
      if_neg hlt]
    exact iff_of_true trivial (not_lt.mp hlt)

/-- Witness for C2: `1.05` versus `1.03` with tolerance `2/100` sit exactly on
the boundary and classify as a match. -/
theorem classify_numeric_tolerance_inclusive_witness :
    CompareRBU.to_float "1.05" = some (Rat.divInt 105 100) ∧
    CompareRBU.to_float "1.03" = some (Rat.divInt 103 100) ∧
    CompareRBU.classify_shared_value "1.05" "1.03" (2 / 100) = CompareRBU.CmpKind.matched := by
  refine ⟨by decide, by decide, ?_⟩
  refine (classify_numeric_tolerance_inclusive "1.05" "1.03" (2 / 100)
    (Rat.divInt 105 100) (Rat.divInt 103 100) (by decide) (by decide)).mpr ?_
  rw [show (Rat.divInt 105 100 : ℚ) = 105 / 100 from Rat.divInt_eq_div 105 100,
    show (Rat.divInt 103 100 : ℚ) = 103 / 100 from Rat.divInt_eq_div 103 100]
  rw [abs_le]
  constructor <;> norm_num

/-- C10: in the record extractors, when a data row's first numeric cell is in
column 0, the channel lookup `row[nums[0] - 1]` wraps around to the row's
last cell and never raises an index error. -/
theorem channel_from_last_cell_on_wraparound (row : List String) (rest : List ℕ)
    (h : DVRbuSpace.num_cols row = 0 :: rest) :
    DVRbuSpace.channel_cell row = row.getLast? ∧ (DVRbuSpace.channel_cell row).isSome := by
  have hne : row ≠ [] := by
    intro hrow
    subst hrow
    simp [DVRbuSpace.num_cols] at h
  have hlen : 0 < row.length := List.length_pos.mpr hne
  have hcc : DVRbuSpace.channel_cell row = Py.pyIdx row (-1) := by
    unfold DVRbuSpace.channel_cell
    rw [h]
    norm_num
  have hnat : ((row.length : ℤ) + -1).toNat = row.length - 1 := by omega
  rw [hcc]
  unfold Py.pyIdx
  rw [if_neg (by norm_num), if_pos (by omega), hnat]
  constructor
  · rw [List.get?_eq_getElem?, List.getLast?_eq_getElem?]
  · rw [List.get?_eq_getElem?]
    simp [List.getElem?_eq_getElem (show row.length - 1 < row.length by omega)]

/-- Witness for C10: the row `["5", "Retail"]` has its first numeric cell in
column 0, and the channel cell resolves to the last cell `"Retail"`. -/
theorem channel_from_last_cell_on_wraparound_witness :
    DVRbuSpace.num_cols ["5", "Retail"] = 0 :: [] ∧
    DVRbuSpace.channel_cell ["5", "Retail"] = (["5", "Retail"] : List String).getLast? ∧
    (DVRbuSpace.channel_cell ["5", "Retail"]).isSome := by
  refine ⟨by decide, ?_⟩
  exact channel_from_last_cell_on_wraparound ["5", "Retail"] [] (by decide)

/-- C1 counterexample: two records from the same source with the same
composite key and values `1` then `2`; `compare_records` stores the value of
the *second* record under the key (silent overwrite, last wins) and its
result carries no duplicate flag, so the first record is not kept as
canonical. -/
theorem compare_records_overwrites_duplicate_key :
    ((RbuSpace.compare_records c1recs ["A"]).lookup ("S", ["G"], "Ch", "M", "P")).map
        (fun e => e.values.lookup "A") = some (some (some 2)) ∧
    ((2 : ℚ) ≠ 1) := by
  constructor
  · decide
  · norm_num

/-- C3 counterexample: in `c3grid` with two header rows, separator count 2 and
data starting at row 2, the fill of label `A` stops before column 1 even
though column 1 has data below the headers and only one column (fewer than 2)
shows a blank section-row cell before the next label; the run instead ends
because column 1 alone has two blank header cells stacked vertically. -/
theorem section_fill_stops_at_single_blank_column :
    (RbuSpace.map_section_labels_by_col c3grid 0 2 2 2).lookup 1 = none ∧
    (RbuSpace.map_section_labels_by_col c3grid 0 2 2 2).lookup 0 = some "A" ∧
    (RbuSpace.map_section_labels_by_col c3grid 0 2 2 2).lookup 2 = some "B" ∧
    RbuSpace.column_has_any_data c3grid 1 2 = true ∧
    RbuSpace.blankAt c3grid 0 1 = true ∧
    RbuSpace.blankAt c3grid 0 2 = false ∧
    RbuSpace.consecutive_blank_headers_in_col c3grid 1 2 = 2 := by
  decide

/-- C4 counterexample: row 1 of `c4grid` is the first numeric-majority row
(the auto-detected header height is 1), yet `forward_fill_label_rows` still
returns its forward fill as a second label row, because the label scan never
stops at numeric rows. -/
theorem label_rows_include_numeric_majority_row :
    RbuSpace.detect_header_rows c4grid 12 = 1 ∧
    RbuSpace.forward_fill_label_rows c4grid 0 1 0 2 =
      [["Group", "Group", "Group"], ["Retail", "1", "2"]] := by
  decide

/-- C5 counterexample: the single table of `c5grid` holds the numeric cell
`"5"` but only one header row, and `extract_records` emits no record at all
for the grid instead of a record with a degenerate group path. -/
theorem extract_records_skips_short_header_block :
    DVRbuSpace.extract_records c5grid "src" = some [] ∧
    DVRbuSpace.is_number (cellAt c5grid 2 1) = true := by
  decide

/-- C6 counterexample: `to_float` strips the trailing `%` of `"12%"` but
returns `12`, not `12 / 100`; and with a currency symbol in front of a
percentage, `parse_numeric` fails entirely and `looks_numeric` rejects the
cell rather than classifying it as numeric-looking. -/
theorem trailing_percent_not_divided_in_to_float :
    CompareRBU.to_float "12%" = some 12 ∧
    ¬ ((12 : ℚ) = 12 / 100) ∧
    RbuSpace.parse_numeric "$12%" = none ∧
    RbuSpace.looks_numeric "$12%" = false := by
  refine ⟨by decide, by norm_num, by decide, by decide⟩

/-- Conditional-append folds compute the filtered map. -/
theorem foldl_append_filter {α β : Type*} (p : α → Bool) (f : α → β) (l : List α)
    (acc : List β) :
    l.foldl (fun a r => if p r then a ++ [f r] else a) acc = acc ++ (l.filter p).map f := by
  induction l generalizing acc with
  | nil => simp
  | cons x xs ih =>
      by_cases hx : p x
      · simp [hx, ih, List.filter_cons]
      · simp [hx, ih, List.filter_cons]

/-- C4 (amended): `forward_fill_label_rows` classifies as label rows exactly
the rows of the block that contain an alphabetic character within
`[left, right]` — with no stopping condition, so rows at or below a
numeric-majority row still contribute when they hold alphabetic text. -/
theorem label_rows_are_exactly_alpha_rows (g : Grid) (top bottom left right : ℕ) :
    RbuSpace.forward_fill_label_rows g top bottom left right =
      ((List.range' top (bottom + 1 - top)).filter
          (fun r => RbuSpace.rowHasAlpha g r left right)).map
        (fun r => RbuSpace.fillLabels g r left right) := by
  unfold RbuSpace.forward_fill_label_rows
  rw [foldl_append_filter]
  simp

/-- C5 (amended): a table whose header scan finds fewer than three header
rows is skipped by `extract_records` — when every table of the grid is such,
the extraction returns no records at all, regardless of numeric data cells. -/
theorem extract_records_empty_of_short_headers (g : Grid) (source : String)
    (h : ∀ tb ∈ DVRbuSpace.find_tables g 1, (DVRbuSpace.headerScan g tb.1 tb.2).1.length < 3) :
    DVRbuSpace.extract_records g source = some [] := by
  unfold DVRbuSpace.extract_records
  have key : ∀ (tbs : List (ℕ × ℕ)),
      (∀ tb ∈ tbs, (DVRbuSpace.headerScan g tb.1 tb.2).1.length < 3) →
      DVRbuSpace.tablesRecords g source (DVRbuSpace.detect_sections g 0) tbs = some [] := by
    intro tbs
    induction tbs with
    | nil => intro _; rfl
    | cons tb rest ih =>
        intro hall
        have h1 : DVRbuSpace.recordsForTable g source (DVRbuSpace.detect_sections g 0)
            tb.1 tb.2 = some [] := by
          unfold DVRbuSpace.recordsForTable
          rw [if_pos (hall tb (by simp))]
        have h2 := ih (fun t ht => hall t (by simp [ht]))
        unfold DVRbuSpace.tablesRecords
        rw [h1, h2]
        rfl
  exact key (DVRbuSpace.find_tables g 1) h

/-- Witness for C5 (amended): the single table of `c5grid` has one header
row, so the whole extraction is empty. -/
theorem extract_records_empty_of_short_headers_witness :
    DVRbuSpace.find_tables c5grid 1 = [(1, 2)] ∧
    (DVRbuSpace.headerScan c5grid 1 2).1.length < 3 ∧
    DVRbuSpace.extract_records c5grid "src" = some [] := by
  refine ⟨by decide, by decide, ?_⟩
  exact extract_records_empty_of_short_headers c5grid "src" (by decide)

/-- Looking up a key in a concatenation of association lists: the left list
takes priority. -/
theorem lookup_append_orElse {α β : Type*} [BEq α] (l1 l2 : List (α × β)) (k : α) :
    (l1 ++ l2).lookup k = ((l1.lookup k).orElse (fun _ => l2.lookup k)) := by
  induction l1 with
  | nil => simp
  | cons p t ih =>
      cases p with
      | mk a b =>
          by_cases hk : k == a
          · simp [List.lookup_cons, hk]
          · simp only [List.cons_append, List.lookup_cons, hk]
            exact ih

/-- A key bound in the accumulator map keeps its binding through the rest of
the `build_row_map` scan: rows never overwrite an existing binding. -/
theorem buildRowMapGo_lookup_of_some (idxs : List ℕ) (k : CodeWithRow.Key) (v : List String)
    (rows : List (List String)) :
    ∀ (m : List (CodeWithRow.Key × List String)) (d : List CodeWithRow.Key),
      m.lookup k = some v → (CodeWithRow.buildRowMapGo idxs m d rows).1.lookup k = some v := by
  induction rows with
  | nil =>
      intro m d hv
      simpa [CodeWithRow.buildRowMapGo] using hv
  | cons r rest ih =>
      intro m d hv
      simp only [CodeWithRow.buildRowMapGo]
      by_cases hm : (m.lookup (CodeWithRow.rowKey idxs r)).isSome = true
      · rw [if_pos hm]
        exact ih m _ hv
      · rw [if_neg hm]
        apply ih
        rw [lookup_append_orElse, hv]
        rfl

/-- A key not yet bound ends up bound to the first row of the remaining scan
whose key matches it. -/
theorem buildRowMapGo_lookup_of_none (idxs : List ℕ) (k : CodeWithRow.Key)
    (rows : List (List String)) :
    ∀ (m : List (CodeWithRow.Key × List String)) (d : List CodeWithRow.Key),
      m.lookup k = none →
      (CodeWithRow.buildRowMapGo idxs m d rows).1.lookup k =
        rows.find? (fun r => CodeWithRow.rowKey idxs r == k) := by
  induction rows with
  | nil =>
      intro m d hv
      simpa [CodeWithRow.buildRowMapGo] using hv
  | cons r rest ih =>
      intro m d hv
      simp only [CodeWithRow.buildRowMapGo]
      by_cases hbk : (CodeWithRow.rowKey idxs r == k) = true
      · have hkeq : CodeWithRow.rowKey idxs r = k := eq_of_beq hbk
        have hm : (m.lookup (CodeWithRow.rowKey idxs r)).isSome = false := by
          rw [hkeq, hv]; rfl
        rw [if_neg (by simp [hm])]
        simp only [List.find?_cons, hbk]
        apply buildRowMapGo_lookup_of_some
        rw [lookup_append_orElse, hkeq, hv]
        simp [List.lookup_cons]
      · have hbk' : (CodeWithRow.rowKey idxs r == k) = false := by simpa using hbk
        simp only [List.find?_cons, hbk']
        by_cases hm : (m.lookup (CodeWithRow.rowKey idxs r)).isSome = true
        · rw [if_pos hm]
          exact ih m _ hv
        · rw [if_neg hm]
          apply ih
          rw [lookup_append_orElse, hv]
          have : (k == CodeWithRow.rowKey idxs r) = false := by
            rw [beq_eq_false_iff_ne]
            intro hcontra
            exact absurd (beq_iff_eq.mpr hcontra.symm) (by simpa using hbk)
          simp [List.lookup_cons, this]

/-- Duplicate counting in the `build_row_map` scan: a key already bound
contributes one flag per matching row; an unbound key contributes one flag
per matching row except the first, which becomes its binding. -/
theorem buildRowMapGo_count (idxs : List ℕ) (k : CodeWithRow.Key)
    (rows : List (List String)) :
    ∀ (m : List (CodeWithRow.Key × List String)) (d : List CodeWithRow.Key),
      (CodeWithRow.buildRowMapGo idxs m d rows).2.count k =
        d.count k +
          (if (m.lookup k).isSome then
            rows.countP (fun r => CodeWithRow.rowKey idxs r == k)
          else rows.countP (fun r => CodeWithRow.rowKey idxs r == k) - 1) := by
  induction rows with
  | nil =>
      intro m d
      by_cases hm : (m.lookup k).isSome = true <;>
        simp [CodeWithRow.buildRowMapGo, hm]
  | cons r rest ih =>
      intro m d
      simp only [CodeWithRow.buildRowMapGo]
      by_cases hbk : (CodeWithRow.rowKey idxs r == k) = true
      · have hkeq : CodeWithRow.rowKey idxs r = k := eq_of_beq hbk
        by_cases hm : (m.lookup (CodeWithRow.rowKey idxs r)).isSome = true
        · rw [if_pos hm, ih]
          have hmk : (m.lookup k).isSome = true := by rw [← hkeq]; exact hm
          simp only [hmk, if_true, List.countP_cons, hbk, List.count_append, hkeq,
            List.count_cons, List.count_nil, beq_self_eq_true]
          omega
        · rw [if_neg hm, ih]
          have hmk : (m.lookup k).isSome = false := by
            rw [← hkeq]; exact Bool.eq_false_iff.mpr hm
          have hmk2 : ((m ++ [(CodeWithRow.rowKey idxs r, r)]).lookup k).isSome = true := by
            rw [lookup_append_orElse]
            rcases hmv : m.lookup k with _ | v
            · simp [Option.orElse, hkeq, List.lookup_cons]
            · rw [hmv] at hmk; simp at hmk
          simp only [hmk2, if_true, hmk, Bool.false_eq_true, if_false, List.countP_cons, hbk]
          omega
      · have hbk2 : (CodeWithRow.rowKey idxs r == k) = false := by simpa using hbk
        by_cases hm : (m.lookup (CodeWithRow.rowKey idxs r)).isSome = true
        · rw [if_pos hm, ih]
          simp only [List.count_append, List.countP_cons, hbk2, List.count_cons,
            List.count_nil, hbk2]
          simp [hbk2]
        · rw [if_neg hm, ih]
          have hsame : ((m ++ [(CodeWithRow.rowKey idxs r, r)]).lookup k) = m.lookup k := by
            rw [lookup_append_orElse]
            have hne : (k == CodeWithRow.rowKey idxs r) = false := by
              rw [beq_eq_false_iff_ne]
              intro hcontra
              exact absurd (beq_iff_eq.mpr hcontra.symm) (by simpa using hbk)
            rcases hmv : m.lookup k with _ | v
            · simp [Option.orElse, List.lookup_cons, hne]
            · simp [Option.orElse]
          rw [hsame]
          simp [List.countP_cons, hbk2]

/-- C1 (amended): in `build_row_map` of `codeWithRow.py`, the row kept for a
key is the first row encountered in scan order, and each later row with the
same key adds one entry to the duplicates list (occurrences − 1 flags in
total); `compare_records` of `rateBuildUp/rbuSpace.py` does not follow this
policy — it silently overwrites with the last record and flags nothing. -/
theorem build_row_map_first_wins (rows : List (List String)) (headers key_cols : List String)
    (idxs : List ℕ) (m : List (CodeWithRow.Key × List String)) (d : List CodeWithRow.Key)
    (hidx : CodeWithRow.resolve_key_indexes headers key_cols = some idxs)
    (hb : CodeWithRow.build_row_map rows headers key_cols = some (m, d))
    (k : CodeWithRow.Key) :
    m.lookup k = rows.find? (fun r => CodeWithRow.rowKey idxs r == k) ∧
    d.count k = rows.countP (fun r => CodeWithRow.rowKey idxs r == k) - 1 := by
  unfold CodeWithRow.build_row_map at hb
  rw [hidx] at hb
  have hgo : CodeWithRow.buildRowMapGo idxs [] [] rows = (m, d) := by
    simpa using hb
  constructor
  · have h := buildRowMapGo_lookup_of_none idxs k rows [] [] rfl
    rw [hgo] at h
    exact h
  · have h := buildRowMapGo_count idxs k rows [] []
    rw [hgo] at h
    simpa using h

/-- Witness for C1 (amended): two rows sharing the key `["A"]`; the map keeps
the first row `["A", "x"]` and the duplicates list flags the key once. -/
theorem build_row_map_first_wins_witness :
    CodeWithRow.resolve_key_indexes ["k"] ["k"] = some [0] ∧
    CodeWithRow.build_row_map c1rows ["k"] ["k"] = some ([(["A"], ["A", "x"])], [["A"]]) ∧
    ([(["A"], ["A", "x"])] : List (CodeWithRow.Key × List String)).lookup ["A"] =
      c1rows.find? (fun r => CodeWithRow.rowKey [0] r == ["A"]) ∧
    ([["A"]] : List CodeWithRow.Key).count ["A"] =
      c1rows.countP (fun r => CodeWithRow.rowKey [0] r == ["A"]) - 1 := by
  refine ⟨by decide, by decide, ?_⟩
  exact build_row_map_first_wins c1rows ["k"] ["k"] [0] [(["A"], ["A", "x"])] [["A"]]
    (by decide) (by decide) ["A"]

/-- C3 (amended): the forward-fill run of a section label started at column
`c` assigns the label to exactly the consecutive columns `d` (within the
fuel window) such that no column from `c` up to `d` triggers the stop
condition — at least `min_blank_sep` blank cells among the column's header
rows, or no data at or below the data start row.  A single column whose
stacked header cells are blank therefore ends the run, regardless of the
section-row cells of neighbouring columns. -/
theorem section_fill_run_mem_iff (g : Grid) (hr ds sep : ℕ) (label : String) :
    ∀ (n c d : ℕ),
      ((d, label) ∈ (RbuSpace.runFill g hr ds sep label n c).1 ↔
        c ≤ d ∧ d < c + n ∧
          ∀ j, c ≤ j → j ≤ d → RbuSpace.colStop g hr ds sep j = false) := by
  intro n
  induction n with
  | zero =>
      intro c d
      simp only [RbuSpace.runFill, List.not_mem_nil, false_iff]
      intro h
      omega
  | succ n ih =>
      intro c d
      simp only [RbuSpace.runFill]
      by_cases hstop : RbuSpace.colStop g hr ds sep c = true
      · rw [if_pos hstop]
        simp only [List.not_mem_nil, false_iff]
        intro h
        have := h.2.2 c le_rfl h.1
        rw [hstop] at this
        cases this
      · rw [if_neg hstop]
        have hstop' : RbuSpace.colStop g hr ds sep c = false := by
          exact Bool.eq_false_iff.mpr hstop
        simp only [List.mem_cons, Prod.mk.injEq, and_true]
        constructor
        · rintro (rfl | hmem)
          · exact ⟨le_rfl, by omega, fun j hj1 hj2 => by
              have : j = d := le_antisymm hj2 hj1
              rw [this]
              exact hstop'⟩
          · obtain ⟨h1, h2, h3⟩ := (ih (c + 1) d).mp hmem
            exact ⟨by omega, by omega, fun j hj1 hj2 => by
              rcases eq_or_lt_of_le hj1 with rfl | hlt
              · exact hstop'
              · exact h3 j (by omega) hj2⟩
        · rintro ⟨h1, h2, h3⟩
          rcases eq_or_lt_of_le h1 with rfl | hlt
          · exact Or.inl rfl
          · refine Or.inr ((ih (c + 1) d).mpr ⟨by omega, by omega, fun j hj1 hj2 =>
              h3 j (by omega) hj2⟩)

/-- A string ending in `%` is never one of the na sentinels. -/
theorem concat_percent_notin_na (l : List Char) :
    (⟨l ++ ['%']⟩ : String) ∉ CompareRBU.na_set := by
  intro hmem
  have hlast : (l ++ ['%']).getLast? = some '%' := List.getLast?_concat _
  simp only [CompareRBU.na_set, List.mem_cons, List.not_mem_nil, or_false] at hmem
  rcases hmem with h | h | h <;>
  · have hd := congrArg (fun s => s.data.getLast?) h
    simp only [hlast] at hd
    simp at hd

/-- C6 (amended): for a cell that is a trailing-`%` number, `parse_numeric`
divides the parsed prefix (commas removed; no currency handling applies
before the `%` check) by 100, while `to_float` strips the `%` but returns the
parsed number undivided, and `is_floaty` still classifies the cell as
numeric. -/
theorem parse_numeric_percent_division (t : List Char) (q : ℚ)
    (htrim : Py.trimL (t ++ ['%']) = t ++ ['%'])
    (hd : '$' ∉ t)
    (hq : Py.pyFloat (t.filter (· ≠ ',')) = some q) :
    RbuSpace.parse_numeric ⟨t ++ ['%']⟩ = some (q / 100) ∧
    CompareRBU.is_floaty ⟨t ++ ['%']⟩ = true ∧
    CompareRBU.to_float ⟨t ++ ['%']⟩ = some q := by
  have hdata : (⟨t ++ ['%']⟩ : String).data = t ++ ['%'] := rfl
  have hsne : (⟨t ++ ['%']⟩ : String) ≠ "" := by
    intro hcontra
    have hempty := congrArg String.data hcontra
    simp at hempty
  have htrimS : Py.trimS ⟨t ++ ['%']⟩ = ⟨t ++ ['%']⟩ := by
    unfold Py.trimS
    rw [hdata, htrim]
  have hblank : RbuSpace.is_blank ⟨t ++ ['%']⟩ = false := by
    simp only [RbuSpace.is_blank, htrimS]
    simpa using hsne
  have hlast : (t ++ ['%']).getLast? = some '%' := List.getLast?_concat _
  have hfilter_comma : (t ++ ['%']).filter (· ≠ ',') = t.filter (· ≠ ',') ++ ['%'] := by
    rw [List.filter_append]
    simp
  have hfilter_dollar : (t.filter (· ≠ ',')).filter (· ≠ '$') = t.filter (· ≠ ',') := by
    rw [List.filter_eq_self]
    intro a ha
    have hat : a ∈ t := List.mem_of_mem_filter ha
    have hane : a ≠ '$' := fun haeq => hd (haeq ▸ hat)
    simpa using hane
  have hs2 : ((t ++ ['%']).filter (· ≠ ',')).filter (· ≠ '$') =
      t.filter (· ≠ ',') ++ ['%'] := by
    rw [hfilter_comma, List.filter_append, hfilter_dollar]
    simp
  have hnacond : ¬((⟨t ++ ['%']⟩ : String) = "" ∨
      Py.lowerS ⟨t ++ ['%']⟩ ∈ CompareRBU.na_set) := by
    rintro (hone | htwo)
    · exact hsne hone
    · have hlow : Py.lowerS ⟨t ++ ['%']⟩ = ⟨t.map Py.lowerCh ++ ['%']⟩ := by
        unfold Py.lowerS
        rw [hdata, List.map_append]
        rfl
      rw [hlow] at htwo
      exact concat_percent_notin_na _ htwo
  refine ⟨?_, ?_, ?_⟩
  · unfold RbuSpace.parse_numeric
    rw [hblank]
    rw [if_neg (by simp)]
    simp only [hdata, htrim, hlast, if_pos, List.dropLast_concat]
    rw [hq]
    simp only [Option.map_some']
    rw [qdiv_eq]
  · unfold CompareRBU.is_floaty
    rw [htrimS, if_neg hnacond]
    simp only [hdata, hs2, List.getLast?_concat, if_pos, List.dropLast_concat, hq]
    rfl
  · unfold CompareRBU.to_float
    rw [htrimS, if_neg hnacond]
    simp only [hdata, hs2, List.getLast?_concat, if_pos, List.dropLast_concat, hq]

/-- Witness for C6 (amended): the cell `"12%"` parses to `12 / 100` under
`parse_numeric` yet to `12` under `to_float`. -/
theorem parse_numeric_percent_division_witness :
    Py.trimL (['1', '2'] ++ ['%']) = ['1', '2'] ++ ['%'] ∧
    ('$' ∉ (['1', '2'] : List Char)) ∧
    Py.pyFloat ((['1', '2'] : List Char).filter (· ≠ ',')) = some 12 ∧
    (RbuSpace.parse_numeric ⟨['1', '2'] ++ ['%']⟩ = some ((12 : ℚ) / 100) ∧
     CompareRBU.is_floaty ⟨['1', '2'] ++ ['%']⟩ = true ∧
     CompareRBU.to_float ⟨['1', '2'] ++ ['%']⟩ = some 12) := by
  refine ⟨by decide, by decide, by decide, ?_⟩
  exact parse_numeric_percent_division ['1', '2'] 12 (by decide) (by decide) (by decide)

/-- Equal dimensions plus pointwise agreement on cell blankness extend to all
coordinates, since out-of-range reads are blank on both sides. -/
theorem blankAt_ext (g1 g2 : Grid)
    (hlen : g1.length = g2.length)
    (hrow : ∀ r, r < g1.length → (g1.getD r []).length = (g2.getD r []).length)
    (hcell : ∀ r, r < g1.length → ∀ c, c < (g1.getD r []).length →
      RbuSpace.blankAt g1 r c = RbuSpace.blankAt g2 r c) :
    ∀ r c, RbuSpace.blankAt g1 r c = RbuSpace.blankAt g2 r c := by
  intro r c
  by_cases hr : r < g1.length
  · by_cases hc : c < (g1.getD r []).length
    · exact hcell r hr c hc
    · have hc2 : (g2.getD r []).length ≤ c := by rw [← hrow r hr]; omega
      unfold RbuSpace.blankAt cellAt
      rw [show (g1.getD r []).getD c "" = "" from List.getD_eq_default _ _ (by omega),
        show (g2.getD r []).getD c "" = "" from List.getD_eq_default _ _ hc2]
  · have hr2 : g2.length ≤ r := by omega
    unfold RbuSpace.blankAt cellAt
    rw [show g1.getD r [] = ([] : List String) from List.getD_eq_default _ _ (by omega),
      show g2.getD r [] = ([] : List String) from List.getD_eq_default _ _ hr2]

/-- `first_non_empty_row_in_cols` depends only on the blankness pattern. -/
theorem first_non_empty_congr (g1 g2 : Grid) (cols : List ℕ) (start_row : ℕ)
    (hlen : g1.length = g2.length)
    (hb : ∀ r c, RbuSpace.blankAt g1 r c = RbuSpace.blankAt g2 r c) :
    RbuSpace.first_non_empty_row_in_cols g1 cols start_row =
      RbuSpace.first_non_empty_row_in_cols g2 cols start_row := by
  unfold RbuSpace.first_non_empty_row_in_cols
  rw [hlen]
  congr 1
  funext r
  simp [hb]

/-- The right-boundary walk depends only on the blankness pattern. -/
theorem rbLoop_congr (g1 g2 : Grid) (row : ℕ)
    (hb : ∀ r c, RbuSpace.blankAt g1 r c = RbuSpace.blankAt g2 r c) :
    ∀ (sortedAll : List ℕ) (start_col : ℕ) (b : Bool) (l : List ℕ),
      RbuSpace.rbLoop g1 row sortedAll start_col b l =
        RbuSpace.rbLoop g2 row sortedAll start_col b l := by
  intro sortedAll start_col b l
  induction l generalizing b with
  | nil => rfl
  | cons c rest ih =>
      simp only [RbuSpace.rbLoop, hb, ih]

/-- `right_boundary_in_row_until_empty_col` depends only on the blankness
pattern. -/
theorem right_boundary_congr (g1 g2 : Grid) (row : ℕ) (cols : List ℕ)
    (hb : ∀ r c, RbuSpace.blankAt g1 r c = RbuSpace.blankAt g2 r c) :
    ∀ (start_col : ℕ),
      RbuSpace.right_boundary_in_row_until_empty_col g1 row cols start_col =
        RbuSpace.right_boundary_in_row_until_empty_col g2 row cols start_col := by
  intro start_col
  unfold RbuSpace.right_boundary_in_row_until_empty_col
  simp only [rbLoop_congr g1 g2 row hb]

/-- `rangeAllBlank` depends only on the blankness pattern. -/
theorem rangeAllBlank_congr (g1 g2 : Grid) (rr left right : ℕ)
    (hb : ∀ r c, RbuSpace.blankAt g1 r c = RbuSpace.blankAt g2 r c) :
    RbuSpace.rangeAllBlank g1 rr left right = RbuSpace.rangeAllBlank g2 rr left right := by
  unfold RbuSpace.rangeAllBlank
  congr 1
  funext c
  exact hb rr c

/-- The bottom scan depends only on the blankness pattern and the height. -/
theorem scanBottom_congr (g1 g2 : Grid)
    (hlen : g1.length = g2.length)
    (hb : ∀ r c, RbuSpace.blankAt g1 r c = RbuSpace.blankAt g2 r c) :
    ∀ (left right fuel rr : ℕ),
      RbuSpace.scanBottom g1 left right fuel rr = RbuSpace.scanBottom g2 left right fuel rr := by
  intro left right fuel
  induction fuel generalizing left right with
  | zero => intro rr; rfl
  | succ n ih =>
      intro rr
      simp only [RbuSpace.scanBottom, hlen, rangeAllBlank_congr g1 g2 rr left right hb, ih]

/-- The block-finding loop depends only on the blankness pattern and the
height. -/
theorem ftbGo_congr (g1 g2 : Grid) (section_cols : List ℕ)
    (hlen : g1.length = g2.length)
    (hb : ∀ r c, RbuSpace.blankAt g1 r c = RbuSpace.blankAt g2 r c) :
    ∀ (fuel r : ℕ),
      RbuSpace.ftbGo g1 section_cols fuel r = RbuSpace.ftbGo g2 section_cols fuel r := by
  intro fuel
  induction fuel with
  | zero => intro r; rfl
  | succ n ih =>
      intro r
      simp only [RbuSpace.ftbGo, first_non_empty_congr g1 g2 section_cols r hlen hb]
      cases RbuSpace.first_non_empty_row_in_cols g2 section_cols r with
      | none => rfl
      | some top =>
          simp only [right_boundary_congr g1 g2 top section_cols hb, hlen,
            scanBottom_congr g1 g2 hlen hb, ih]

/-- C7: two grids of equal dimensions whose cells agree pointwise on
blankness — in particular grids differing only in the text of non-blank
cells, such as date-window tokens — produce identical table-block rectangles
for the same section columns and section row. -/
theorem find_table_blocks_blank_invariant (g1 g2 : Grid) (cols : List ℕ) (srow : ℕ)
    (hlen : g1.length = g2.length)
    (hrow : ∀ r, r < g1.length → (g1.getD r []).length = (g2.getD r []).length)
    (hcell : ∀ r, r < g1.length → ∀ c, c < (g1.getD r []).length →
      RbuSpace.blankAt g1 r c = RbuSpace.blankAt g2 r c) :
    RbuSpace.find_table_blocks_in_section g1 cols srow =
      RbuSpace.find_table_blocks_in_section g2 cols srow := by
  have hb := blankAt_ext g1 g2 hlen hrow hcell
  unfold RbuSpace.find_table_blocks_in_section
  by_cases hc : cols = []
  · rw [if_pos hc, if_pos hc]
  · rw [if_neg hc, if_neg hc, hlen, ftbGo_congr g1 g2 cols hlen hb]

/-- Witness for C7: replacing the date-window token of `c7grid1` by the text
`"PERIOD-LABEL"` leaves every block rectangle unchanged. -/
theorem find_table_blocks_blank_invariant_witness :
    RbuSpace.find_table_blocks_in_section c7grid1 [0, 1] 0 =
      RbuSpace.find_table_blocks_in_section c7grid2 [0, 1] 0 :=
  find_table_blocks_blank_invariant c7grid1 c7grid2 [0, 1] 0 (by decide) (by decide)
    (by decide)

/-- Whitespace collapsing is idempotent, for either value of the
previous-character flag. -/
theorem collapseGo_idem (l : List Char) :
    CompareRBU.collapseGo false (CompareRBU.collapseGo false l) =
        CompareRBU.collapseGo false l ∧
    CompareRBU.collapseGo true (CompareRBU.collapseGo true l) =
        CompareRBU.collapseGo true l := by
  induction l with
  | nil => exact ⟨rfl, rfl⟩
  | cons c t ih =>
      by_cases hc : Py.ws c = true
      · constructor
        · have hsp : Py.ws ' ' = true := by decide
          simp only [CompareRBU.collapseGo, hc, if_true]
          simp only [CompareRBU.collapseGo, hsp, if_true]
          rw [ih.2]
        · simp only [CompareRBU.collapseGo, hc, if_true]
          exact ih.2
      · have hc2 : Py.ws c = false := by simpa using hc
        constructor
        · simp only [CompareRBU.collapseGo, hc2, Bool.false_eq_true, if_false]
          rw [ih.1]
        · simp only [CompareRBU.collapseGo, hc2, Bool.false_eq_true, if_false]
          rw [ih.1]

/-- One-step unfolding of the whitespace-collapse loop. -/
theorem collapseGo_cons (b : Bool) (x : Char) (t : List Char) :
    CompareRBU.collapseGo b (x :: t) =
      if Py.ws x = true then
        (if b = true then CompareRBU.collapseGo true t
         else ' ' :: CompareRBU.collapseGo true t)
      else x :: CompareRBU.collapseGo false t := rfl

/-- The last-element map of a cons with a non-empty tail skips the head. -/
theorem getLast?_cons_ne_nil {α : Type*} (a : α) (l : List α) (h : l ≠ []) :
    (a :: l).getLast? = l.getLast? := by
  cases l with
  | nil => exact absurd rfl h
  | cons y u => rw [List.getLast?_cons_cons]

/-- Every character of a collapsed string comes from the input or is the
space that replaced a whitespace run. -/
theorem mem_collapseGo (c : Char) :
    ∀ (b : Bool) (l : List Char), c ∈ CompareRBU.collapseGo b l → c ∈ l ∨ c = ' ' := by
  intro b l
  induction l generalizing b with
  | nil =>
      intro h
      rw [show CompareRBU.collapseGo b [] = ([] : List Char) from rfl] at h
      simp at h
  | cons x t ih =>
      intro h
      rw [collapseGo_cons] at h
      by_cases hx : Py.ws x = true
      · rw [if_pos hx] at h
        cases b with
        | true =>
            rw [if_pos rfl] at h
            rcases ih true h with hm | he
            · exact Or.inl (List.mem_cons_of_mem _ hm)
            · exact Or.inr he
        | false =>
            rw [if_neg (by simp)] at h
            simp only [List.mem_cons] at h
            rcases h with rfl | h2
            · exact Or.inr rfl
            · rcases ih true h2 with hm | he
              · exact Or.inl (List.mem_cons_of_mem _ hm)
              · exact Or.inr he
      · rw [if_neg hx] at h
        simp only [List.mem_cons] at h
        rcases h with rfl | h2
        · exact Or.inl (List.mem_cons_self _ _)
        · rcases ih false h2 with hm | he
          · exact Or.inl (List.mem_cons_of_mem _ hm)
          · exact Or.inr he

/-- Characters of the stripped string are characters of the input. -/
theorem mem_trimL (c : Char) (l : List Char) (h : c ∈ Py.trimL l) : c ∈ l := by
  unfold Py.trimL Py.rtrim at h
  rw [List.mem_reverse] at h
  have h2 := (List.dropWhile_suffix Py.ws).mem h
  rw [List.mem_reverse] at h2
  exact (List.dropWhile_suffix Py.ws).mem h2

/-- A collapsed string keeps a non-whitespace head. -/
theorem collapseGo_head (c : Char) (l : List Char) (hl : l.head? = some c)
    (hc : Py.ws c = false) : (CompareRBU.collapseGo false l).head? = some c := by
  cases l with
  | nil => simp at hl
  | cons x t =>
      simp only [List.head?_cons, Option.some.injEq] at hl
      subst hl
      rw [collapseGo_cons, if_neg (by simp [hc])]
      rfl

/-- A collapsed string keeps a non-whitespace last character. -/
theorem collapseGo_last (c : Char) (hc : Py.ws c = false) :
    ∀ (l : List Char) (b : Bool), l.getLast? = some c →
      (CompareRBU.collapseGo b l).getLast? = some c := by
  intro l
  induction l with
  | nil => intro b h; simp at h
  | cons x t ih =>
      intro b h
      cases t with
      | nil =>
          simp only [List.getLast?_singleton, Option.some.injEq] at h
          subst h
          rw [collapseGo_cons, if_neg (by simp [hc])]
          rfl
      | cons y u =>
          rw [List.getLast?_cons_cons] at h
          have hrec : ∀ b2, (CompareRBU.collapseGo b2 (y :: u)).getLast? = some c :=
            fun b2 => ih b2 h
          have hne : ∀ b2, CompareRBU.collapseGo b2 (y :: u) ≠ [] := fun b2 hcon => by
            have hcc := hrec b2
            rw [hcon] at hcc
            simp at hcc
          by_cases hx : Py.ws x = true
          · rw [collapseGo_cons, if_pos hx]
            by_cases hb : b = true
            · rw [if_pos hb]
              exact hrec true
            · rw [if_neg hb]
              rw [getLast?_cons_ne_nil _ _ (hne true)]
              exact hrec true
          · rw [collapseGo_cons, if_neg hx]
            rw [getLast?_cons_ne_nil _ _ (hne false)]
            exact hrec false

/-- The head of a whitespace-drop is never whitespace. -/
theorem dropWhile_ws_head (l : List Char) (c : Char)
    (h : (l.dropWhile Py.ws).head? = some c) : Py.ws c = false := by
  induction l with
  | nil => simp at h
  | cons x t ih =>
      rw [List.dropWhile_cons] at h
      by_cases hx : Py.ws x = true
      · rw [if_pos hx] at h
        exact ih h
      · rw [if_neg hx] at h
        simp only [List.head?_cons, Option.some.injEq] at h
        subst h
        simpa using hx

/-- The head of a stripped string is never whitespace. -/
theorem trimL_head (l : List Char) (c : Char) (h : (Py.trimL l).head? = some c) :
    Py.ws c = false := by
  have hpre : (Py.trimL l) <+: (l.dropWhile Py.ws) := by
    unfold Py.trimL Py.rtrim
    conv_rhs => rw [← List.reverse_reverse (l.dropWhile Py.ws)]
    exact List.reverse_prefix.mpr (List.dropWhile_suffix Py.ws)
  obtain ⟨t, ht⟩ := hpre
  have hm : (l.dropWhile Py.ws).head? = some c := by
    rw [← ht, List.head?_append, h]
    rfl
  exact dropWhile_ws_head l c hm

/-- The last character of a stripped string is never whitespace. -/
theorem trimL_last (l : List Char) (c : Char) (h : (Py.trimL l).getLast? = some c) :
    Py.ws c = false := by
  unfold Py.trimL Py.rtrim at h
  rw [List.getLast?_reverse] at h
  exact dropWhile_ws_head _ c h

/-- Stripping is the identity on strings with non-whitespace ends. -/
theorem trimL_eq_self (l : List Char)
    (hhead : ∀ c, l.head? = some c → Py.ws c = false)
    (hlast : ∀ c, l.getLast? = some c → Py.ws c = false) :
    Py.trimL l = l := by
  unfold Py.trimL Py.rtrim
  have h1 : l.dropWhile Py.ws = l := by
    cases l with
    | nil => rfl
    | cons x t =>
        have hx := hhead x rfl
        rw [List.dropWhile_cons, if_neg (by simp [hx])]
  rw [h1]
  have h2 : l.reverse.dropWhile Py.ws = l.reverse := by
    cases hr : l.reverse with
    | nil => rfl
    | cons x t =>
        have hx : l.getLast? = some x := by
          rw [← List.head?_reverse, hr]
          rfl
        have hwx := hlast x hx
        rw [List.dropWhile_cons, if_neg (by simp [hwx])]
  rw [h2, List.reverse_reverse]

/-- Dash replacement is idempotent on characters. -/
theorem dashCh_idem (c : Char) : CompareRBU.dashCh (CompareRBU.dashCh c) =
    CompareRBU.dashCh c := by
  by_cases h : c = '–' ∨ c = '—'
  · simp [CompareRBU.dashCh, h]
  · simp [CompareRBU.dashCh, h]

/-- Dash replacement does not change whether a character is whitespace. -/
theorem ws_dashCh (c : Char) : Py.ws (CompareRBU.dashCh c) = Py.ws c := by
  by_cases h : c = '–' ∨ c = '—'
  · rcases h with rfl | rfl <;> decide
  · simp [CompareRBU.dashCh, h]

/-- Characters kept by the alphanumeric filter are not whitespace, not the
BOM, and fixed by lower-casing. -/
theorem keepCh_props (c : Char) (h : Rates.keepCh c = true) :
    Py.ws c = false ∧ c ≠ '\uFEFF' ∧ Py.lowerCh c = c := by
  have hk : ('a' ≤ c ∧ c ≤ 'z') ∨ ('0' ≤ c ∧ c ≤ '9') := by
    simpa [Rates.keepCh] using h
  refine ⟨?_, ?_, ?_⟩
  · by_contra hws
    have hws2 : Py.ws c = true := by simpa using hws
    have : ((c = ' ' ∨ c = '\t') ∨ c = '\r') ∨ c = '\n' := by
      simpa [Py.ws, Char.isWhitespace] using hws2
    rcases this with ((rfl | rfl) | rfl) | rfl <;>
      rcases hk with ⟨h1, h2⟩ | ⟨h1, h2⟩ <;>
        exact absurd h1 (by decide)
  · intro hcon
    subst hcon
    rcases hk with ⟨h1, h2⟩ | ⟨h1, h2⟩ <;> exact absurd h2 (by decide)
  · unfold Py.lowerCh
    rw [if_neg ?hno]
    case hno =>
      rintro ⟨hA, hZ⟩
      rcases hk with ⟨h1, h2⟩ | ⟨h1, h2⟩
      · exact absurd (le_trans h1 hZ) (by decide)
      · exact absurd (le_trans hA h2) (by decide)

/-- The collapse of the dash-fixed strip of any string has non-whitespace
head and last characters. -/
theorem normText_ends (l : List Char) :
    (∀ c, (CompareRBU.collapseGo false ((Py.trimL l).map CompareRBU.dashCh)).head? = some c →
        Py.ws c = false) ∧
    (∀ c, (CompareRBU.collapseGo false ((Py.trimL l).map CompareRBU.dashCh)).getLast? = some c →
        Py.ws c = false) := by
  cases ht : Py.trimL l with
  | nil =>
      constructor <;> intro c hc <;> simp [CompareRBU.collapseGo] at hc
  | cons a0 t0 =>
      constructor
      · intro c hc
        have hhead0 : (Py.trimL l).head? = some a0 := by rw [ht]; rfl
        have hws0 : Py.ws a0 = false := trimL_head l a0 hhead0
        have hwsa : Py.ws (CompareRBU.dashCh a0) = false := by rw [ws_dashCh]; exact hws0
        have hxhead : ((a0 :: t0).map CompareRBU.dashCh).head? =
            some (CompareRBU.dashCh a0) := by rfl
        have := collapseGo_head (CompareRBU.dashCh a0) _ hxhead hwsa
        rw [hc] at this
        simp only [Option.some.injEq] at this
        rw [this]
        exact hwsa
      · intro c hc
        cases hl0 : (a0 :: t0).getLast? with
        | none => simp at hl0
        | some aL =>
            have hlast0 : (Py.trimL l).getLast? = some aL := by rw [ht]; exact hl0
            have hwsl : Py.ws aL = false := trimL_last l aL hlast0
            have hwsa : Py.ws (CompareRBU.dashCh aL) = false := by rw [ws_dashCh]; exact hwsl
            have hxlast : ((a0 :: t0).map CompareRBU.dashCh).getLast? =
                some (CompareRBU.dashCh aL) := by
              rw [List.getLast?_map, hl0]
              rfl
            have := collapseGo_last (CompareRBU.dashCh aL) hwsa _ false hxlast
            rw [hc] at this
            simp only [Option.some.injEq] at this
            rw [this]
            exact hwsa

/-- C9: the two label-normalization functions are idempotent:
`normalize_text` (strip, dash rewrite, whitespace collapse) and
`normalize_header` (BOM removal, strip, lower-case, keep `[a-z0-9]`) both fix
their own output. -/
theorem normalization_idempotent (s : String) :
    CompareRBU.normalize_text (CompareRBU.normalize_text s) = CompareRBU.normalize_text s ∧
    Rates.normalize_header (Rates.normalize_header s) = Rates.normalize_header s := by
  constructor
  · set x := (Py.trimL s.data).map CompareRBU.dashCh with hx
    set y := CompareRBU.collapseGo false x with hy
    have hends := normText_ends s.data
    rw [← hx, ← hy] at hends
    have htrim : Py.trimL y = y := trimL_eq_self y hends.1 hends.2
    have hmapd : y.map CompareRBU.dashCh = y := by
      have hpt : ∀ a ∈ y, CompareRBU.dashCh a = id a := by
        intro a ha
        rcases mem_collapseGo a false x (hy ▸ ha) with hmx | hsp
        · rcases List.mem_map.mp (hx ▸ hmx) with ⟨a0, _, ha0⟩
          rw [← ha0, dashCh_idem]
          rfl
        · rw [hsp]
          rfl
      rw [List.map_congr_left hpt, List.map_id]
    show (⟨CompareRBU.collapseGo false ((Py.trimL y).map CompareRBU.dashCh)⟩ : String) = ⟨y⟩
    rw [htrim, hmapd, hy, (collapseGo_idem x).1]
  · set y := ((Rates.clean_text s).data.map Py.lowerCh).filter Rates.keepCh with hy
    have hall : ∀ c ∈ y, Rates.keepCh c = true := fun c hc => (List.mem_filter.mp hc).2
    have hkeep := fun c hc => keepCh_props c (hall c hc)
    have hfilterBOM : y.filter (· ≠ '\uFEFF') = y := by
      rw [List.filter_eq_self]
      intro a ha
      simpa using (hkeep a ha).2.1
    have htrim : Py.trimL y = y := by
      apply trimL_eq_self
      · intro c hc
        exact (hkeep c (List.mem_of_mem_head? (by rw [hc]; rfl))).1
      · intro c hc
        exact (hkeep c (List.mem_of_getLast?_eq_some hc)).1
    have hclean : Rates.clean_text ⟨y⟩ = ⟨y⟩ := by
      show (⟨Py.trimL (y.filter (· ≠ '\uFEFF'))⟩ : String) = ⟨y⟩
      rw [hfilterBOM, htrim]
    have hlower : y.map Py.lowerCh = y := by
      have hpt : ∀ a ∈ y, Py.lowerCh a = id a := fun a ha => (hkeep a ha).2.2
      rw [List.map_congr_left hpt, List.map_id]
    have hfilter : y.filter Rates.keepCh = y := List.filter_eq_self.mpr hall
    show (⟨((Rates.clean_text ⟨y⟩).data.map Py.lowerCh).filter Rates.keepCh⟩ : String) = ⟨y⟩
    rw [hclean]
    show (⟨(y.map Py.lowerCh).filter Rates.keepCh⟩ : String) = ⟨y⟩
    rw [hlower, hfilter]
